import Mathlib

/-!
Shallow embedding of the iMessages chatbot server (an asyncio Python
program) for verification of its specification.

Python strings are modelled as lists of characters (`PyStr`).  Each
embedded definition mirrors one function of the source:

* `EchoServer.split_into_messages` and `EchoServer.calculate_typing_delay`
  from `server.py`;
* `MessageSender._escape_applescript_string` and the retry loop of
  `MessageSender.send_message` from `message_sender.py`;
* the retry loop of `AIClient.get_response` from `ai_client.py`;
* `MessageMonitor.get_current_max_row_id` and
  `MessageMonitor.poll_new_messages` from `message_monitor.py`;
* the startup-watermark logic and the polling loop of
  `EchoServer.poll_messages`, and the per-message trace of
  `EchoServer.handle_conversation`, from `server.py`.

External effects (HTTP responses, osascript exit codes, database rows,
send successes) are supplied as explicit oracle arguments; database
writes and deliveries performed by a conversation handler are recorded
as an explicit event trace.
-/

set_option autoImplicit false

/-- Python strings, modelled as lists of characters. -/
abbrev PyStr := List Char

/-- The characters removed by Python `str.strip()` (the ASCII whitespace
characters; the claims under study involve no other whitespace). -/
def isPySpace (c : Char) : Bool :=
  c = ' ' || c = '\t' || c = '\n' || c = '\r' || c = Char.ofNat 11 || c = Char.ofNat 12

/-- Python `str.strip()`: remove leading and trailing whitespace. -/
def pyStrip (l : PyStr) : PyStr :=
  ((l.dropWhile isPySpace).reverse.dropWhile isPySpace).reverse

/-- Python `text.split('\n\n')`: split on non-overlapping occurrences of
the two-character separator, scanning left to right. -/
def splitNN : PyStr → List PyStr
  | [] => [[]]
  | '\n' :: '\n' :: t => [] :: splitNN t
  | c :: t =>
    let r := splitNN t
    (c :: r.headD []) :: r.tail

/-- Python `'\n\n'.join(parts)`. -/
def joinNN : List PyStr → PyStr
  | [] => []
  | [x] => x
  | x :: y :: t => x ++ '\n' :: '\n' :: joinNN (y :: t)

/-- `EchoServer.split_into_messages` (server.py): split the reply on
blank lines, strip each part, drop empty parts, and cap the number of
parts at `max_messages` by re-joining the overflow into the last part. -/
def split_into_messages (text : PyStr) (max_messages : Nat := 5) : List PyStr :=
  if text = [] then []
  else
    let parts := ((splitNN text).map pyStrip).filter (fun p => p ≠ [])
    if parts.length ≤ max_messages then parts
    else parts.take (max_messages - 1) ++ [joinNN (parts.drop (max_messages - 1))]

/-- `EchoServer.calculate_typing_delay` (server.py): five-tier step
function of the message's character length.  The Python floats
1.0/1.5/2.0/2.5/3.0 are exactly representable; we use rationals. -/
def calculate_typing_delay (message : PyStr) : ℚ :=
  let length := message.length
  if length < 20 then 1.0
  else if length < 50 then 1.5
  else if length < 100 then 2.0
  else if length < 200 then 2.5
  else 3.0

theorem splitNN_ne_nil (l : PyStr) : splitNN l ≠ [] := by
  match l with
  | [] => simp [splitNN]
  | '\n' :: '\n' :: t => simp [splitNN]
  | c :: t =>
    rw [splitNN.eq_def]
    split <;> simp

theorem joinNN_cons (x : PyStr) (l : List PyStr) (h : l ≠ []) :
    joinNN (x :: l) = x ++ '\n' :: '\n' :: joinNN l := by
  match l with
  | [] => exact absurd rfl h
  | y :: t => rfl

/-- Re-joining the split of a string recovers the string. -/
theorem joinNN_splitNN (l : PyStr) : joinNN (splitNN l) = l := by
  induction l using splitNN.induct with
  | case1 => rfl
  | case2 t ih =>
    rw [splitNN.eq_2, joinNN_cons _ _ (splitNN_ne_nil t), ih]
    rfl
  | case3 c t hpat ih =>
    rw [splitNN.eq_3 c t hpat]
    cases hs : splitNN t with
    | nil => exact absurd hs (splitNN_ne_nil t)
    | cons s ss =>
      rw [hs] at ih
      cases ss with
      | nil =>
        simp only [joinNN] at ih
        simp [joinNN, ih]
      | cons s2 ss2 =>
        simp only [joinNN] at ih
        simp [joinNN, ih]

/-- Python `text.replace(old, new)` restricted to a single-character
`old` (all occurrences, left to right), which is the only form
`MessageSender._escape_applescript_string` uses. -/
def pyReplaceChar (old : Char) (new : PyStr) (l : PyStr) : PyStr :=
  l.flatMap (fun c => if c = old then new else [c])

/-- `MessageSender._escape_applescript_string` (message_sender.py): the
four sequential `str.replace` calls, in source order (backslash first,
then double-quote, newline, carriage return). -/
def _escape_applescript_string (text : PyStr) : PyStr :=
  let t1 := pyReplaceChar '\\' ['\\', '\\'] text
  let t2 := pyReplaceChar '"' ['\\', '"'] t1
  let t3 := pyReplaceChar '\n' ['\\', 'n'] t2
  pyReplaceChar '\r' ['\\', 'r'] t3

/-- Per-character view of the escaping: what one input character
contributes to the escaped output. -/
def escChar (c : Char) : PyStr :=
  if c = '\\' then ['\\', '\\']
  else if c = '"' then ['\\', '"']
  else if c = '\n' then ['\\', 'n']
  else if c = '\r' then ['\\', 'r']
  else [c]

/-- Decoder for escaped strings; a left inverse of the escaping on its
image (on a stray backslash pair outside the image its value is
irrelevant). -/
def decEsc : PyStr → PyStr
  | [] => []
  | [c] => [c]
  | c :: d :: t =>
    if c = '\\' then
      (if d = '\\' then '\\'
       else if d = '"' then '"'
       else if d = 'n' then '\n'
       else '\r') :: decEsc t
    else c :: decEsc (d :: t)

theorem pyReplaceChar_cons (old : Char) (new : PyStr) (c : Char) (t : PyStr) :
    pyReplaceChar old new (c :: t) =
      (if c = old then new else [c]) ++ pyReplaceChar old new t := by
  simp [pyReplaceChar]

theorem escape_cons (c : Char) (t : PyStr) :
    _escape_applescript_string (c :: t) =
      escChar c ++ _escape_applescript_string t := by
  by_cases h1 : c = '\\'
  · subst h1; rfl
  · by_cases h2 : c = '"'
    · subst h2; rfl
    · by_cases h3 : c = '\n'
      · subst h3; rfl
      · by_cases h4 : c = '\r'
        · subst h4; rfl
        · simp [_escape_applescript_string, pyReplaceChar_cons, h1, h2, h3, h4,
            escChar]

/-- The sequential replaces amount to a per-character escaping. -/
theorem escape_eq_flatMap (s : PyStr) :
    _escape_applescript_string s = s.flatMap escChar := by
  induction s with
  | nil => rfl
  | cons c t ih => rw [escape_cons, ih, List.flatMap_cons]

theorem decEsc_escape (s : PyStr) : decEsc (_escape_applescript_string s) = s := by
  induction s with
  | nil => rfl
  | cons c t ih =>
    rw [escape_cons]
    by_cases h1 : c = '\\'
    · subst h1; simpa [escChar, decEsc] using ih
    · by_cases h2 : c = '"'
      · subst h2; simpa [escChar, decEsc] using ih
      · by_cases h3 : c = '\n'
        · subst h3; simpa [escChar, decEsc] using ih
        · by_cases h4 : c = '\r'
          · subst h4; simpa [escChar, decEsc] using ih
          · have hesc : escChar c = [c] := by simp [escChar, h1, h2, h3, h4]
            rw [hesc]
            cases he : _escape_applescript_string t with
            | nil => simp [decEsc, he] at ih; simp [decEsc, ih]
            | cons d t2 =>
              rw [he] at ih
              simpa [decEsc, h1] using ih

theorem escape_injective (s1 s2 : PyStr)
    (h : _escape_applescript_string s1 = _escape_applescript_string s2) :
    s1 = s2 := by
  have := congrArg decEsc h
  rwa [decEsc_escape, decEsc_escape] at this

theorem escape_no_raw_newline (s : PyStr) :
    ∀ c ∈ _escape_applescript_string s, c ≠ '\n' ∧ c ≠ '\r' := by
  intro c hc
  rw [escape_eq_flatMap] at hc
  rcases List.mem_flatMap.mp hc with ⟨a, _, ha⟩
  by_cases h1 : a = '\\'
  · subst h1; simp [escChar] at ha; subst ha; decide
  · by_cases h2 : a = '"'
    · subst h2; simp [escChar] at ha; rcases ha with rfl | rfl <;> decide
    · by_cases h3 : a = '\n'
      · subst h3; simp [escChar] at ha; rcases ha with rfl | rfl <;> decide
      · by_cases h4 : a = '\r'
        · subst h4; simp [escChar] at ha; rcases ha with rfl | rfl <;> decide
        · simp [escChar, h1, h2, h3, h4] at ha
          subst ha
          exact ⟨h3, h4⟩

/-- How one attempt of `AIClient.get_response` at parsing the HTTP
response body can end: `json r` means `response.json()` returned data
whose `reply`/`response`/`text` lookup produced `r` (with `some []` for
a present-but-empty reply, which Python truthiness treats as missing);
`notJson` means `response.json()` raised. -/
inductive BodyParse
  | json (reply : Option PyStr)
  | notJson
  deriving DecidableEq

/-- Outcome of one HTTP attempt in `AIClient.get_response`: a response
with a status code and body, a timeout (`asyncio.TimeoutError`), or any
other exception raised during the request. -/
inductive ApiOutcome
  | http (status : Nat) (body : BodyParse)
  | timeout
  | exn
  deriving DecidableEq

/-- The retry loop of `AIClient.get_response` (ai_client.py).  `o n` is
the outcome of attempt `n`; `remaining` is the number of loop
iterations left (`max_retries - attempt`), so `0 < remaining` inside an
iteration is Python's `attempt < max_retries - 1`.  Falling out of the
loop returns `None`. -/
def aiLoop (o : Nat → ApiOutcome) : Nat → Nat → Option PyStr
  | _, 0 => none
  | attempt, remaining + 1 =>
    match o attempt with
    | .http s body =>
      if s = 200 then
        match body with
        | .json (some t) => if t = [] then none else some t
        | .json none => none
        | .notJson =>
          if 0 < remaining then aiLoop o (attempt + 1) remaining else none
      else if 500 ≤ s ∧ 0 < remaining then aiLoop o (attempt + 1) remaining
      else none
    | .timeout =>
      if 0 < remaining then aiLoop o (attempt + 1) remaining else none
    | .exn =>
      if 0 < remaining then aiLoop o (attempt + 1) remaining else none

/-- `AIClient.get_response`: `max_retries = 3`, starting at attempt 0. -/
def get_response (o : Nat → ApiOutcome) : Option PyStr := aiLoop o 0 3

/-- Outcome of one `osascript` attempt in `MessageSender.send_message`:
the process exit code, or an exception while spawning/communicating. -/
inductive SendOutcome
  | rc (code : Int)
  | exn
  deriving DecidableEq

/-- The retry loop of `MessageSender.send_message` (message_sender.py),
in the same fuel style as `aiLoop`; exit code 0 returns success, any
other exit code or an exception retries while attempts remain. -/
def sendLoop (o : Nat → SendOutcome) : Nat → Nat → Bool
  | _, 0 => false
  | attempt, remaining + 1 =>
    match o attempt with
    | .rc code =>
      if code = 0 then true
      else if 0 < remaining then sendLoop o (attempt + 1) remaining else false
    | .exn =>
      if 0 < remaining then sendLoop o (attempt + 1) remaining else false

/-- `MessageSender.send_message` delivery outcome:
`Config.APPLESCRIPT_RETRY_COUNT = 3` attempts starting at attempt 0. -/
def send_message (o : Nat → SendOutcome) : Bool := sendLoop o 0 3

/-- One row of the external Messages database as seen by the monitor's
SQL query (the join columns it selects). -/
structure ChatRow where
  rowid : Int
  chat_identifier : String
  text : Option String
  is_from_me : Int
  deriving DecidableEq

/-- SQL `SELECT MAX(ROWID) FROM message`: `none` is NULL (empty table). -/
def sqlMaxRowId : List ChatRow → Option Int
  | [] => none
  | r :: t =>
    match sqlMaxRowId t with
    | none => some r.rowid
    | some m => some (max r.rowid m)

/-- `MessageMonitor.get_current_max_row_id` (src/message_monitor.py):
the query outcome is `none` when connecting or querying raised, `some
db` when it returned the message table.  A NULL maximum and a raised
error both yield 0. -/
def get_current_max_row_id (q : Option (List ChatRow)) : Int :=
  match q with
  | none => 0
  | some db =>
    match sqlMaxRowId db with
    | none => 0
    | some m => if m = 0 then 0 else m

/-- The WHERE clause of the monitor's query: `ROWID > ?`,
`is_from_me = 0`, `text IS NOT NULL`, `text != ''`. -/
def rowWanted (last : Int) (r : ChatRow) : Bool :=
  decide (last < r.rowid) && decide (r.is_from_me = 0)
    && r.text.isSome && decide (r.text ≠ some "")

/-- The monitor's SELECT: filter by the WHERE clause, ORDER BY ROWID
ascending. -/
def monitorQuery (last : Int) (db : List ChatRow) : List ChatRow :=
  (db.filter (rowWanted last)).mergeSort (fun a b => a.rowid ≤ b.rowid)

/-- The body of the row loop in `MessageMonitor.poll_new_messages`:
append `(chat_identifier, text, ROWID)` and raise the running maximum. -/
def pollStep (acc : List (String × String × Int) × Int) (r : ChatRow) :
    List (String × String × Int) × Int :=
  let mx := if acc.2 < r.rowid then r.rowid else acc.2
  (acc.1 ++ [(r.chat_identifier, r.text.getD "", r.rowid)], mx)

/-- `MessageMonitor.poll_new_messages` (message_monitor.py and
src/message_monitor.py, which are identical): `none` for the query
outcome models any raised error, which is swallowed and reported as
"no new messages, unchanged cursor". -/
def poll_new_messages (last_row_id : Int) (q : Option (List ChatRow)) :
    List (String × String × Int) × Int :=
  match q with
  | none => ([], last_row_id)
  | some db =>
    let rows := monitorQuery last_row_id db
    if rows = [] then ([], last_row_id)
    else rows.foldl pollStep ([], last_row_id)

/-- The first-run bootstrap at the top of `EchoServer.poll_messages`
(server.py): when the stored cursor is the sentinel 0, the watermark
becomes the source's current maximum row id and is persisted
immediately; the second component records what was persisted during
initialization (`none`: nothing). -/
def poll_messages_init (stored : Int) (currentMax : Int) : Int × Option Int :=
  if stored = 0 then (currentMax, some currentMax) else (stored, none)

/-- One iteration of the polling loop in `EchoServer.poll_messages`:
the cursor advances to the returned maximum only when the batch is
non-empty. -/
def pollCycle (c : Int) (q : Option (List ChatRow)) : Int :=
  let res := poll_new_messages c q
  if res.1 = [] then c else res.2

/-- A sequence of polling-loop iterations. -/
def pollCycles (c : Int) (qs : List (Option (List ChatRow))) : Int :=
  qs.foldl pollCycle c

theorem pollStep_snd_le (acc : List (String × String × Int) × Int) (r : ChatRow) :
    acc.2 ≤ (pollStep acc r).2 := by
  simp only [pollStep]
  split
  · exact le_of_lt (by assumption)
  · exact le_refl _

theorem pollFoldl_snd_le (rows : List ChatRow) :
    ∀ acc : List (String × String × Int) × Int,
      acc.2 ≤ (rows.foldl pollStep acc).2 := by
  induction rows with
  | nil => intro acc; exact le_refl _
  | cons r rest ih =>
    intro acc
    exact le_trans (pollStep_snd_le acc r) (ih (pollStep acc r))

theorem pollFoldl_mem (rows : List ChatRow) :
    ∀ (acc : List (String × String × Int) × Int) (m : String × String × Int),
      m ∈ (rows.foldl pollStep acc).1 →
        m ∈ acc.1 ∨ ∃ r ∈ rows, m = (r.chat_identifier, r.text.getD "", r.rowid) := by
  induction rows with
  | nil => intro acc m hm; exact Or.inl hm
  | cons r rest ih =>
    intro acc m hm
    rcases ih (pollStep acc r) m hm with hacc | ⟨r2, hr2, hm2⟩
    · simp only [pollStep, List.mem_append, List.mem_singleton] at hacc
      rcases hacc with h | h
      · exact Or.inl h
      · exact Or.inr ⟨r, List.mem_cons_self r rest, h⟩
    · exact Or.inr ⟨r2, List.mem_cons_of_mem r hr2, hm2⟩

theorem mem_monitorQuery_gt (last : Int) (db : List ChatRow) (r : ChatRow)
    (h : r ∈ monitorQuery last db) : last < r.rowid := by
  have hf : r ∈ db.filter (rowWanted last) := List.mem_mergeSort.mp h
  have hw : rowWanted last r = true := List.of_mem_filter hf
  simp only [rowWanted, Bool.and_eq_true, decide_eq_true_eq] at hw
  exact hw.1.1.1

/-- Every message produced by a poll has a row id strictly above the
cursor the poll was given. -/
theorem poll_mem_gt (last : Int) (q : Option (List ChatRow))
    (s t : String) (mid : Int)
    (h : (s, t, mid) ∈ (poll_new_messages last q).1) : last < mid := by
  match q with
  | none => simp [poll_new_messages] at h
  | some db =>
    simp only [poll_new_messages] at h
    split at h
    · simp at h
    · rcases pollFoldl_mem _ _ _ h with hacc | ⟨r, hr, heq⟩
      · simp at hacc
      · have : mid = r.rowid := congrArg (fun p => p.2.2) heq
        rw [this]
        exact mem_monitorQuery_gt last db r hr

theorem sqlMaxRowId_mem_le (db : List ChatRow) (r : ChatRow) (h : r ∈ db) :
    ∃ m, sqlMaxRowId db = some m ∧ r.rowid ≤ m := by
  induction db with
  | nil => simp at h
  | cons a rest ih =>
    rcases List.mem_cons.mp h with rfl | hrest
    · match hm : sqlMaxRowId rest with
      | none => exact ⟨r.rowid, by simp [sqlMaxRowId, hm], le_refl _⟩
      | some m => exact ⟨max r.rowid m, by simp [sqlMaxRowId, hm], le_max_left _ _⟩
    · rcases ih hrest with ⟨m, hm, hle⟩
      match hm2 : sqlMaxRowId rest with
      | none => rw [hm2] at hm; cases hm
      | some m2 =>
        rw [hm2] at hm
        cases hm
        exact ⟨max a.rowid m, by simp [sqlMaxRowId, hm2], le_trans hle (le_max_right _ _)⟩

theorem mem_le_currentMax (db : List ChatRow) (r : ChatRow) (h : r ∈ db) :
    r.rowid ≤ get_current_max_row_id (some db) := by
  rcases sqlMaxRowId_mem_le db r h with ⟨m, hm, hle⟩
  simp only [get_current_max_row_id, hm]
  split
  · rename_i h0; rw [h0] at hle; exact hle
  · exact hle

/-- C6: For every starting cursor value last_row_id ≥ 0 and every poll
outcome (non-empty batch, empty batch, or failed query), the new
maximum row id returned by poll_new_messages is ≥ last_row_id; hence
the persisted cursor is monotonically non-decreasing across any
sequence of poll cycles, including cycles that observe zero new
messages.  (Proved for every integer cursor, which subsumes ≥ 0.) -/
theorem C6_cursor_monotone :
    (∀ (last : Int) (q : Option (List ChatRow)),
        last ≤ (poll_new_messages last q).2)
    ∧ (∀ (c : Int) (q : Option (List ChatRow)), c ≤ pollCycle c q)
    ∧ (∀ (c : Int) (qs : List (Option (List ChatRow))), c ≤ pollCycles c qs) := by
  have h1 : ∀ (last : Int) (q : Option (List ChatRow)),
      last ≤ (poll_new_messages last q).2 := by
    intro last q
    match q with
    | none => exact le_refl _
    | some db =>
      simp only [poll_new_messages]
      split
      · exact le_refl _
      · exact pollFoldl_snd_le _ ([], last)
  have h2 : ∀ (c : Int) (q : Option (List ChatRow)), c ≤ pollCycle c q := by
    intro c q
    simp only [pollCycle]
    split
    · exact le_refl _
    · exact h1 c q
  refine ⟨h1, h2, ?_⟩
  intro c qs
  induction qs generalizing c with
  | nil => exact le_refl _
  | cons q rest ih =>
    exact le_trans (h2 c q) (ih (pollCycle c q))

/-- C9: For every last_row_id, if the underlying source query raises
any error (modelled by the query outcome `none`), poll_new_messages
returns the empty batch together with the unchanged last_row_id, and —
being a total function into that pair type — never propagates the
error to the polling loop. -/
theorem C9_query_error_swallowed :
    ∀ last_row_id : Int, poll_new_messages last_row_id none = ([], last_row_id) :=
  fun _ => rfl

/-- C7: If the persisted cursor read at startup equals 0 (the bootstrap
sentinel), poll_messages initializes the watermark to the message
source's current maximum row id (via get_current_max_row_id) and
persists that value before the first poll iteration; consequently no
row present in the startup database is ever dispatched by any later
poll whose cursor is at or above that watermark. -/
theorem C7_bootstrap_skips_backlog (db : List ChatRow) (stored : Int)
    (h : stored = 0) :
    poll_messages_init stored (get_current_max_row_id (some db)) =
      (get_current_max_row_id (some db), some (get_current_max_row_id (some db)))
    ∧ ∀ r ∈ db, ∀ w : Int, get_current_max_row_id (some db) ≤ w →
        ∀ (q : Option (List ChatRow)) (s t : String) (mid : Int),
          (s, t, mid) ∈ (poll_new_messages w q).1 → mid ≠ r.rowid := by
  constructor
  · subst h; simp [poll_messages_init]
  · intro r hr w hw q s t mid hmem
    have h1 : w < mid := poll_mem_gt w q s t mid hmem
    have h2 : r.rowid ≤ get_current_max_row_id (some db) := mem_le_currentMax db r hr
    omega

/-- Witness for C7: a two-row startup database with the cursor stored
as the bootstrap sentinel 0. -/
theorem C7_bootstrap_skips_backlog_witness :
    poll_messages_init 0
        (get_current_max_row_id (some [⟨1, "alice", some "hi", 0⟩, ⟨2, "bob", some "yo", 1⟩])) =
      (get_current_max_row_id (some [⟨1, "alice", some "hi", 0⟩, ⟨2, "bob", some "yo", 1⟩]),
        some (get_current_max_row_id (some [⟨1, "alice", some "hi", 0⟩, ⟨2, "bob", some "yo", 1⟩]))) :=
  (C7_bootstrap_skips_backlog [⟨1, "alice", some "hi", 0⟩, ⟨2, "bob", some "yo", 1⟩] 0 rfl).1

/-- An AI oracle whose every attempt yields HTTP 200 with a body that
fails JSON parsing. -/
def aiOracleBadBody : Nat → ApiOutcome := fun _ => ApiOutcome.http 200 BodyParse.notJson

/-- An AI oracle whose first attempt yields HTTP 200 with an unparseable
body and whose later attempts yield a well-formed reply. -/
def aiOracleBadThenOk : Nat → ApiOutcome := fun n =>
  if n = 0 then ApiOutcome.http 200 BodyParse.notJson
  else ApiOutcome.http 200 (BodyParse.json (some ['o', 'k']))

/-- C2 counterexample: a malformed (unparseable) response body on an
HTTP 200 reply does NOT terminate the call immediately — the raised
parse error is caught by the blanket `except Exception` handler and
retried.  Two oracles that agree on attempt 0 (both malformed-200) give
different results, so the call did not terminate at attempt 0; with a
well-formed second attempt the reply 'ok' is returned. -/
theorem C2_counterexample :
    aiOracleBadBody 0 = aiOracleBadThenOk 0
    ∧ get_response aiOracleBadBody = none
    ∧ get_response aiOracleBadThenOk = some ['o', 'k'] :=
  ⟨rfl, rfl, rfl⟩

/-- C2 (amended): in the retry loops of `AIClient.get_response` and
`MessageSender.send_message`, with attempts remaining: an HTTP 200
reply whose parsed JSON lacks a truthy reply field, and a non-5xx error
status, terminate immediately without retry; 5xx statuses, timeouts,
transport exceptions — and also an HTTP 200 reply whose body fails JSON
parsing, which the blanket exception handler treats like a transport
error — are retried; the sender retries every failure (non-zero exit
code or exception). -/
theorem C2_retry_classification (o : Nat → ApiOutcome) (so : Nat → SendOutcome)
    (a rem : Nat) (hrem : 0 < rem) :
    (∀ t : PyStr, o a = .http 200 (.json (some t)) → t ≠ [] →
        aiLoop o a (rem + 1) = some t)
    ∧ (o a = .http 200 (.json none) → aiLoop o a (rem + 1) = none)
    ∧ (∀ t : PyStr, o a = .http 200 (.json (some t)) → t = [] →
        aiLoop o a (rem + 1) = none)
    ∧ (∀ (s : Nat) (b : BodyParse), o a = .http s b → s ≠ 200 → s < 500 →
        aiLoop o a (rem + 1) = none)
    ∧ (∀ (s : Nat) (b : BodyParse), o a = .http s b → 500 ≤ s →
        aiLoop o a (rem + 1) = aiLoop o (a + 1) rem)
    ∧ (o a = .timeout → aiLoop o a (rem + 1) = aiLoop o (a + 1) rem)
    ∧ (o a = .exn → aiLoop o a (rem + 1) = aiLoop o (a + 1) rem)
    ∧ (o a = .http 200 .notJson → aiLoop o a (rem + 1) = aiLoop o (a + 1) rem)
    ∧ (so a = .rc 0 → sendLoop so a (rem + 1) = true)
    ∧ (∀ c : Int, so a = .rc c → c ≠ 0 →
        sendLoop so a (rem + 1) = sendLoop so (a + 1) rem)
    ∧ (so a = .exn → sendLoop so a (rem + 1) = sendLoop so (a + 1) rem) := by
  refine ⟨?_, ?_, ?_, ?_, ?_, ?_, ?_, ?_, ?_, ?_, ?_⟩
  · intro t h ht; simp [aiLoop, h, ht]
  · intro h; simp [aiLoop, h]
  · intro t h ht; simp [aiLoop, h, ht]
  · intro s b h hne hlt
    have h5 : ¬(500 ≤ s ∧ 0 < rem) := by omega
    simp [aiLoop, h, hne, h5]
  · intro s b h h5
    have hne : ¬(s = 200) := by omega
    simp [aiLoop, h, hne, h5, hrem]
  · intro h; simp [aiLoop, h, hrem]
  · intro h; simp [aiLoop, h, hrem]
  · intro h; simp [aiLoop, h, hrem]
  · intro h; simp [sendLoop, h]
  · intro c h hc; simp [sendLoop, h, hc, hrem]
  · intro h; simp [sendLoop, h, hrem]

/-- Witness for C2 (amended): a sender oracle that succeeds at once and
an AI oracle that times out on attempt 0 and is retried. -/
theorem C2_retry_classification_witness :
    sendLoop (fun _ => SendOutcome.rc 0) 0 (1 + 1) = true
    ∧ aiLoop (fun _ => ApiOutcome.timeout) 0 (1 + 1) =
        aiLoop (fun _ => ApiOutcome.timeout) (0 + 1) 1 :=
  ⟨((C2_retry_classification (fun _ => ApiOutcome.timeout) (fun _ => SendOutcome.rc 0)
      0 1 (by decide)).2.2.2.2.2.2.2.2.1) rfl,
   ((C2_retry_classification (fun _ => ApiOutcome.timeout) (fun _ => SendOutcome.rc 0)
      0 1 (by decide)).2.2.2.2.2.1) rfl⟩

theorem joinNN_append_join (xs ys : List PyStr) (hys : ys ≠ []) :
    joinNN (xs ++ [joinNN ys]) = joinNN (xs ++ ys) := by
  induction xs with
  | nil => rfl
  | cons x xs ih =>
    have h1 : xs ++ [joinNN ys] ≠ [] := by simp
    have h2 : xs ++ ys ≠ [] := by simp [hys]
    rw [List.cons_append, joinNN_cons _ _ h1, ih, List.cons_append,
      joinNN_cons _ _ h2]

/-- C3: For every input string text, split_into_messages(text, 5)
segments text on blank-line boundaries, strips each segment, discards
empty segments, and returns at most 5 parts; when the segment count is
within the cap the segments are returned as-is, and whenever it exceeds
5 the first 4 parts are the first 4 segments as-is and the 5th part is
all remaining segments re-joined with the paragraph separator. -/
theorem C3_split_cap (text : PyStr) :
    (split_into_messages text 5).length ≤ 5
    ∧ ((((splitNN text).map pyStrip).filter (fun p => p ≠ [])).length ≤ 5 →
        split_into_messages text 5 =
          ((splitNN text).map pyStrip).filter (fun p => p ≠ []))
    ∧ (5 < (((splitNN text).map pyStrip).filter (fun p => p ≠ [])).length →
        split_into_messages text 5 =
          (((splitNN text).map pyStrip).filter (fun p => p ≠ [])).take 4
            ++ [joinNN ((((splitNN text).map pyStrip).filter (fun p => p ≠ [])).drop 4)]) := by
  by_cases htext : text = []
  · subst htext
    refine ⟨by simp [split_into_messages], ?_, ?_⟩
    · intro _
      simp [split_into_messages, splitNN, pyStrip]
    · intro habs
      simp [splitNN, pyStrip] at habs
  · simp only [split_into_messages, if_neg htext]
    set segs := ((splitNN text).map pyStrip).filter (fun p => p ≠ []) with hsegs
    by_cases hlen : segs.length ≤ 5
    · simp [hlen]
    · refine ⟨?_, fun h => absurd h hlen, fun _ => by simp [hlen]⟩
      simp only [if_neg hlen]
      have : (segs.take (5 - 1)).length ≤ 5 - 1 := List.length_take_le _ _
      simp only [List.length_append, List.length_singleton]
      omega

/-- Witness for C3: seven one-word paragraphs; the result is the first
four paragraphs plus the last three re-joined. -/
theorem C3_split_cap_witness :
    split_into_messages "p1\n\np2\n\np3\n\np4\n\np5\n\np6\n\np7".data 5 =
      (((splitNN "p1\n\np2\n\np3\n\np4\n\np5\n\np6\n\np7".data).map pyStrip).filter
          (fun p => p ≠ [])).take 4
        ++ [joinNN ((((splitNN "p1\n\np2\n\np3\n\np4\n\np5\n\np6\n\np7".data).map
            pyStrip).filter (fun p => p ≠ [])).drop 4)] :=
  (C3_split_cap "p1\n\np2\n\np3\n\np4\n\np5\n\np6\n\np7".data).2.2 (by decide)

/-- C4 counterexample: for the input "a\n\n \n\nb" (a whitespace-only
middle paragraph), the parts re-join to "a\n\nb", which differs from
the input even though the input has no leading or trailing whitespace
to trim — the whitespace-only segment and one separator are lost. -/
theorem C4_counterexample :
    joinNN (split_into_messages "a\n\n \n\nb".data 5) = "a\n\nb".data
    ∧ "a\n\nb".data ≠ "a\n\n \n\nb".data
    ∧ pyStrip "a\n\n \n\nb".data = "a\n\n \n\nb".data := by
  refine ⟨by decide, by decide, by decide⟩

/-- C4 (amended): split_into_messages(text) returns between 0 and 5
parts, and concatenating the returned parts with '\n\n' reconstructs
the input with each paragraph trimmed and whitespace-only paragraphs
dropped; in particular the reconstruction is exactly the input whenever
every paragraph of the input is nonempty and carries no leading or
trailing whitespace. -/
theorem C4_split_reconstruction (text : PyStr) :
    (split_into_messages text 5).length ≤ 5
    ∧ joinNN (split_into_messages text 5) =
        joinNN (((splitNN text).map pyStrip).filter (fun p => p ≠ []))
    ∧ ((∀ s ∈ splitNN text, pyStrip s = s ∧ s ≠ []) →
        joinNN (split_into_messages text 5) = text) := by
  have hlen : (split_into_messages text 5).length ≤ 5 := (C3_split_cap text).1
  have hjoin : joinNN (split_into_messages text 5) =
      joinNN (((splitNN text).map pyStrip).filter (fun p => p ≠ [])) := by
    by_cases htext : text = []
    · subst htext; simp [split_into_messages, splitNN, pyStrip]
    · simp only [split_into_messages, if_neg htext]
      set segs := ((splitNN text).map pyStrip).filter (fun p => p ≠ []) with hsegs
      by_cases hl : segs.length ≤ 5
      · simp [hl]
      · simp only [if_neg hl]
        have hdrop : segs.drop 4 ≠ [] := by
          intro habs
          have := congrArg List.length habs
          simp at this
          omega
        rw [joinNN_append_join _ _ hdrop, List.take_append_drop]
  refine ⟨hlen, hjoin, ?_⟩
  intro hall
  have hmap : (splitNN text).map pyStrip = splitNN text :=
    List.map_congr_left (fun s hs => (hall s hs).1) |>.trans (List.map_id _)
  have hfilter : (splitNN text).filter (fun p => p ≠ []) = splitNN text :=
    List.filter_eq_self.mpr (fun s hs => by
      simpa using (hall s hs).2)
  rw [hjoin, hmap, hfilter, joinNN_splitNN]

/-- Witness for C4 (amended): an input whose two paragraphs are already
trimmed and nonempty re-joins exactly. -/
theorem C4_split_reconstruction_witness :
    joinNN (split_into_messages "a\n\nb".data 5) = "a\n\nb".data :=
  (C4_split_reconstruction "a\n\nb".data).2.2 (by decide)

/-- C5: calculate_typing_delay is exactly the five-tier step function
of character length — <20 → 1.0, <50 → 1.5, <100 → 2.0, <200 → 2.5,
otherwise 3.0 — and is non-decreasing in input length (so in
particular it takes the table's values at the boundary lengths 19/20,
49/50, 99/100, 199/200). -/
theorem C5_typing_delay_table :
    (∀ m : PyStr, m.length < 20 → calculate_typing_delay m = 1.0)
    ∧ (∀ m : PyStr, 20 ≤ m.length → m.length < 50 → calculate_typing_delay m = 1.5)
    ∧ (∀ m : PyStr, 50 ≤ m.length → m.length < 100 → calculate_typing_delay m = 2.0)
    ∧ (∀ m : PyStr, 100 ≤ m.length → m.length < 200 → calculate_typing_delay m = 2.5)
    ∧ (∀ m : PyStr, 200 ≤ m.length → calculate_typing_delay m = 3.0)
    ∧ (∀ m1 m2 : PyStr, m1.length ≤ m2.length →
        calculate_typing_delay m1 ≤ calculate_typing_delay m2) := by
  refine ⟨?_, ?_, ?_, ?_, ?_, ?_⟩
  · intro m h; simp [calculate_typing_delay, h]
  · intro m h1 h2
    simp only [calculate_typing_delay]
    rw [if_neg (by omega), if_pos h2]
  · intro m h1 h2
    simp only [calculate_typing_delay]
    rw [if_neg (by omega), if_neg (by omega), if_pos h2]
  · intro m h1 h2
    simp only [calculate_typing_delay]
    rw [if_neg (by omega), if_neg (by omega), if_neg (by omega), if_pos h2]
  · intro m h1
    simp only [calculate_typing_delay]
    rw [if_neg (by omega), if_neg (by omega), if_neg (by omega), if_neg (by omega)]
  · intro m1 m2 hle
    simp only [calculate_typing_delay]
    split_ifs <;> first | (exfalso; omega) | norm_num

/-- Witness for C5: the eight boundary lengths of the table. -/
theorem C5_typing_delay_table_witness :
    calculate_typing_delay (List.replicate 19 'a') = 1.0
    ∧ calculate_typing_delay (List.replicate 20 'a') = 1.5
    ∧ calculate_typing_delay (List.replicate 49 'a') = 1.5
    ∧ calculate_typing_delay (List.replicate 50 'a') = 2.0
    ∧ calculate_typing_delay (List.replicate 99 'a') = 2.0
    ∧ calculate_typing_delay (List.replicate 100 'a') = 2.5
    ∧ calculate_typing_delay (List.replicate 199 'a') = 2.5
    ∧ calculate_typing_delay (List.replicate 200 'a') = 3.0 :=
  ⟨C5_typing_delay_table.1 (List.replicate 19 'a') (by decide),
   C5_typing_delay_table.2.1 (List.replicate 20 'a') (by decide) (by decide),
   C5_typing_delay_table.2.1 (List.replicate 49 'a') (by decide) (by decide),
   C5_typing_delay_table.2.2.1 (List.replicate 50 'a') (by decide) (by decide),
   C5_typing_delay_table.2.2.1 (List.replicate 99 'a') (by decide) (by decide),
   C5_typing_delay_table.2.2.2.1 (List.replicate 100 'a') (by decide) (by decide),
   C5_typing_delay_table.2.2.2.1 (List.replicate 199 'a') (by decide) (by decide),
   C5_typing_delay_table.2.2.2.2.1 (List.replicate 200 'a') (by decide)⟩

/-- C10: the AppleScript escaping produces no raw newline or carriage
return; it is the per-character escaping in which every double-quote
and every backslash of the input is emitted preceded by an escaping
backslash; and it is injective. -/
theorem C10_escape_correct (s : PyStr) :
    (∀ c ∈ _escape_applescript_string s, c ≠ '\n' ∧ c ≠ '\r')
    ∧ _escape_applescript_string s = s.flatMap escChar
    ∧ escChar '"' = ['\\', '"'] ∧ escChar '\\' = ['\\', '\\']
    ∧ ∀ s2 : PyStr, _escape_applescript_string s = _escape_applescript_string s2 →
        s = s2 :=
  ⟨escape_no_raw_newline s, escape_eq_flatMap s, rfl, rfl,
    fun s2 h => escape_injective s s2 h⟩

/-- Witness for C10: the escape of a lone newline, a membership
instance of the no-raw-newline property, and an injectivity instance. -/
theorem C10_escape_correct_witness :
    _escape_applescript_string ['\n'] = ['\\', 'n']
    ∧ ('\\' ≠ '\n' ∧ '\\' ≠ '\r')
    ∧ (['a'] : PyStr) = ['a'] :=
  ⟨rfl, (C10_escape_correct ['\n']).1 '\\' (by decide),
    (C10_escape_correct ['a']).2.2.2.2 ['a'] rfl⟩

/-- Observable events of one `EchoServer.handle_conversation` run:
database writes (`persistIn` for the inbound save, `persistOut` for an
outbound save, with the part index as ghost data), the history fetch,
typing-indicator actions, deliveries (`sendMsg` recording the
recipient, part index, text and the delivery result), and pacing
sleeps. -/
inductive Ev
  | persistIn (sender text : PyStr)
  | fetchHistory
  | typeDot
  | clearDot
  | sendMsg (recipient : PyStr) (idx : Nat) (text : PyStr) (ok : Bool)
  | persistOut (recipient : PyStr) (idx : Nat) (text : PyStr)
  | sleepPace (d : ℚ)
  deriving DecidableEq

/-- The fixed fallback text of `handle_conversation` (server.py). -/
def fallback_message : PyStr :=
  'I' :: Char.ofNat 39 ::
    "m having trouble processing your message right now. Please try again in a moment.".data

/-- The typing-indicator pause executed between parts (only when more
parts remain and the indicator is enabled): show the dot, sleep for the
NEXT part's typing delay, clear the dot. -/
def typingPause (cfg : Bool) (rest : List PyStr) : List Ev :=
  match rest with
  | [] => []
  | next :: _ =>
    if cfg then
      [Ev.typeDot, Ev.sleepPace (calculate_typing_delay next), Ev.clearDot]
    else []

/-- The part-delivery loop of `handle_conversation` from part index `i`
on: send the part; on success persist it and (when parts remain) run
the typing pause, then continue; on failure stop (`break`).  `sendOk j`
is the delivery result for part `j`. -/
def deliverGo (cfg : Bool) (rcp : PyStr) (sendOk : Nat → Bool) :
    Nat → List PyStr → List Ev
  | _, [] => []
  | i, p :: rest =>
    Ev.sendMsg rcp i p (sendOk i)
      :: (if sendOk i then
            Ev.persistOut rcp i p
              :: (typingPause cfg rest ++ deliverGo cfg rcp sendOk (i + 1) rest)
          else [])

/-- The whole part-delivery loop: the `i == 0` clear-dot that the first
loop iteration performs (when the typing indicator is enabled) is
hoisted in front of `deliverGo`; it happens exactly when there is at
least one part. -/
def deliverLoop (cfg : Bool) (rcp : PyStr) (sendOk : Nat → Bool)
    (parts : List PyStr) : List Ev :=
  match parts with
  | [] => []
  | _ :: _ => (if cfg then [Ev.clearDot] else []) ++ deliverGo cfg rcp sendOk 0 parts

/-- `EchoServer.handle_conversation` (server.py) as an event trace:
persist the inbound message, show the typing dot (if enabled), fetch
the history, call the AI through its retry loop; on a reply, split it
and run the delivery loop; on definitive failure, clear the dot (if
enabled) and send the fixed fallback message. -/
def handle_conversation (cfg : Bool) (sender text : PyStr)
    (ai : Nat → ApiOutcome) (sendOk : Nat → Bool) : List Ev :=
  Ev.persistIn sender text
    :: ((if cfg then [Ev.typeDot] else [])
      ++ Ev.fetchHistory
        :: (match get_response ai with
          | some resp => deliverLoop cfg sender sendOk (split_into_messages resp 5)
          | none =>
            (if cfg then [Ev.clearDot] else [])
              ++ [Ev.sendMsg sender 0 fallback_message (sendOk 0)]))

theorem sendMsg_not_mem_typingPause (cfg : Bool) (rest : List PyStr)
    (r : PyStr) (j : Nat) (t : PyStr) (b : Bool) :
    Ev.sendMsg r j t b ∉ typingPause cfg rest := by
  unfold typingPause
  split
  · simp
  · split <;> simp

theorem persistOut_not_mem_typingPause (cfg : Bool) (rest : List PyStr)
    (r : PyStr) (j : Nat) (t : PyStr) :
    Ev.persistOut r j t ∉ typingPause cfg rest := by
  unfold typingPause
  split
  · simp
  · split <;> simp

/-- Any send recorded by the delivery loop from index `i` on has index
at least `i`, records the oracle's result for its index, sends the part
at the matching position, and is preceded (index-wise) only by
successful deliveries. -/
theorem deliverGo_send_mem (cfg : Bool) (rcp : PyStr) (ok : Nat → Bool) :
    ∀ (parts : List PyStr) (i j : Nat) (t : PyStr) (b : Bool),
      Ev.sendMsg rcp j t b ∈ deliverGo cfg rcp ok i parts →
        i ≤ j ∧ b = ok j ∧ parts[j - i]? = some t ∧
          ∀ m, i ≤ m → m < j → ok m = true := by
  intro parts
  induction parts with
  | nil => intro i j t b h; simp [deliverGo] at h
  | cons p rest ih =>
    intro i j t b h
    simp only [deliverGo, List.mem_cons] at h
    rcases h with heq | hrest
    · cases heq
      exact ⟨le_refl _, rfl, by simp, fun m h1 h2 => absurd (lt_of_le_of_lt h1 h2)
        (lt_irrefl _)⟩
    · by_cases hok : ok i = true
      · rw [if_pos hok] at hrest
        rcases List.mem_cons.mp hrest with heq2 | hrest2
        · cases heq2
        · rcases List.mem_append.mp hrest2 with htp | hrec
          · exact absurd htp (sendMsg_not_mem_typingPause _ _ _ _ _ _)
          · rcases ih (i + 1) j t b hrec with ⟨h1, h2, h3, h4⟩
            refine ⟨by omega, h2, ?_, ?_⟩
            · have hji : j - i = (j - (i + 1)) + 1 := by omega
              rw [hji, List.getElem?_cons_succ]
              exact h3
            · intro m hm1 hm2
              rcases Nat.eq_or_lt_of_le hm1 with rfl | hlt
              · exact hok
              · exact h4 m hlt hm2
      · rw [if_neg hok] at hrest
        simp at hrest

/-- A successful send is immediately followed in the trace by the
persist of the same part. -/
theorem deliverGo_send_persist_adjacent (cfg : Bool) (rcp : PyStr)
    (ok : Nat → Bool) :
    ∀ (parts : List PyStr) (i j : Nat) (t : PyStr) (b : Bool),
      Ev.sendMsg rcp j t b ∈ deliverGo cfg rcp ok i parts → ok j = true →
        ∃ pre post, deliverGo cfg rcp ok i parts =
          pre ++ Ev.sendMsg rcp j t true :: Ev.persistOut rcp j t :: post := by
  intro parts
  induction parts with
  | nil => intro i j t b h _; simp [deliverGo] at h
  | cons p rest ih =>
    intro i j t b h hok
    simp only [deliverGo, List.mem_cons] at h
    rcases h with heq | hrest
    · cases heq
      refine ⟨[], typingPause cfg rest ++ deliverGo cfg rcp ok (i + 1) rest, ?_⟩
      simp [deliverGo, hok]
    · by_cases hoki : ok i = true
      · rw [if_pos hoki] at hrest
        rcases List.mem_cons.mp hrest with heq2 | hrest2
        · cases heq2
        · rcases List.mem_append.mp hrest2 with htp | hrec
          · exact absurd htp (sendMsg_not_mem_typingPause _ _ _ _ _ _)
          · rcases ih (i + 1) j t b hrec hok with ⟨pre, post, hsplit⟩
            refine ⟨Ev.sendMsg rcp i p (ok i) :: Ev.persistOut rcp i p ::
              (typingPause cfg rest ++ pre), post, ?_⟩
            simp only [deliverGo, if_pos hoki, hoki, hsplit]
            simp
      · rw [if_neg hoki] at hrest
        simp at hrest

/-- If the part at position `k - i` exists and every delivery from `i`
through `k` succeeds, the loop from `i` persists part `k`. -/
theorem deliverGo_persist_mem (cfg : Bool) (rcp : PyStr) (ok : Nat → Bool) :
    ∀ (parts : List PyStr) (i k : Nat) (pk : PyStr),
      parts[k - i]? = some pk → i ≤ k → (∀ m, i ≤ m → m ≤ k → ok m = true) →
        Ev.persistOut rcp k pk ∈ deliverGo cfg rcp ok i parts := by
  intro parts
  induction parts with
  | nil => intro i k pk hget _ _; simp at hget
  | cons p rest ih =>
    intro i k pk hget hik hall
    have hoki : ok i = true := hall i (le_refl _) hik
    rcases Nat.eq_or_lt_of_le hik with rfl | hlt
    · simp only [Nat.sub_self, List.getElem?_cons_zero, Option.some.injEq] at hget
      subst hget
      simp [deliverGo, hoki]
    · have hk : k - i = (k - (i + 1)) + 1 := by omega
      rw [hk, List.getElem?_cons_succ] at hget
      have hmem : Ev.persistOut rcp k pk ∈ deliverGo cfg rcp ok (i + 1) rest :=
        ih (i + 1) k pk hget (by omega) (fun m h1 h2 => hall m (by omega) h2)
      simp only [deliverGo, if_pos hoki]
      exact List.mem_cons_of_mem _ (List.mem_cons_of_mem _
        (List.mem_append.mpr (Or.inr hmem)))

theorem mem_deliverLoop_send (cfg : Bool) (rcp : PyStr) (ok : Nat → Bool)
    (parts : List PyStr) (j : Nat) (t : PyStr) (b : Bool) :
    Ev.sendMsg rcp j t b ∈ deliverLoop cfg rcp ok parts ↔
      Ev.sendMsg rcp j t b ∈ deliverGo cfg rcp ok 0 parts := by
  cases parts with
  | nil => simp [deliverLoop, deliverGo]
  | cons p rest => cases cfg <;> simp [deliverLoop]

theorem mem_deliverLoop_persist (cfg : Bool) (rcp : PyStr) (ok : Nat → Bool)
    (parts : List PyStr) (j : Nat) (t : PyStr) :
    Ev.persistOut rcp j t ∈ deliverLoop cfg rcp ok parts ↔
      Ev.persistOut rcp j t ∈ deliverGo cfg rcp ok 0 parts := by
  cases parts with
  | nil => simp [deliverLoop, deliverGo]
  | cons p rest => cases cfg <;> simp [deliverLoop]

/-- C8: within one reply's part-delivery loop, part i+1 is sent only
after part i's delivery succeeded; each successfully delivered part is
persisted as an outbound record immediately after its delivery (the
persist event directly follows the send event in the trace); and if
delivery of part i fails, no later part of that reply is sent while the
persists already recorded for parts before i all remain in the
(append-only) trace. -/
theorem C8_part_delivery (cfg : Bool) (rcp : PyStr) (ok : Nat → Bool)
    (parts : List PyStr) :
    (∀ (j : Nat) (t : PyStr) (b : Bool),
        Ev.sendMsg rcp (j + 1) t b ∈ deliverLoop cfg rcp ok parts → ok j = true)
    ∧ (∀ (j : Nat) (t : PyStr) (b : Bool),
        Ev.sendMsg rcp j t b ∈ deliverLoop cfg rcp ok parts → ok j = true →
          ∃ pre post, deliverLoop cfg rcp ok parts =
            pre ++ Ev.sendMsg rcp j t true :: Ev.persistOut rcp j t :: post)
    ∧ (∀ (j : Nat) (t : PyStr),
        Ev.sendMsg rcp j t false ∈ deliverLoop cfg rcp ok parts →
          (∀ (k : Nat) (u : PyStr) (b : Bool),
              Ev.sendMsg rcp k u b ∈ deliverLoop cfg rcp ok parts → k ≤ j)
          ∧ ∀ k, k < j → ∃ u, parts[k]? = some u ∧
              Ev.persistOut rcp k u ∈ deliverLoop cfg rcp ok parts) := by
  refine ⟨?_, ?_, ?_⟩
  · intro j t b h
    rcases deliverGo_send_mem cfg rcp ok parts 0 (j + 1) t b
      ((mem_deliverLoop_send _ _ _ _ _ _ _).mp h) with ⟨_, _, _, h4⟩
    exact h4 j (Nat.zero_le _) (by omega)
  · intro j t b h hok
    rcases deliverGo_send_persist_adjacent cfg rcp ok parts 0 j t b
      ((mem_deliverLoop_send _ _ _ _ _ _ _).mp h) hok with ⟨pre, post, hsplit⟩
    cases parts with
    | nil => simp [deliverGo] at hsplit
    | cons p rest =>
      refine ⟨(if cfg then [Ev.clearDot] else []) ++ pre, post, ?_⟩
      simp only [deliverLoop, hsplit, List.append_assoc]
  · intro j t h
    have hgo := (mem_deliverLoop_send _ _ _ _ _ _ _).mp h
    rcases deliverGo_send_mem cfg rcp ok parts 0 j t false hgo with ⟨_, hb, h3, h4⟩
    have hokj : ok j = false := hb.symm
    simp only [Nat.sub_zero] at h3
    constructor
    · intro k u b hk
      rcases deliverGo_send_mem cfg rcp ok parts 0 k u b
        ((mem_deliverLoop_send _ _ _ _ _ _ _).mp hk) with ⟨_, _, _, hk4⟩
      by_contra hgt
      push_neg at hgt
      have := hk4 j (Nat.zero_le _) hgt
      rw [hokj] at this
      cases this
    · intro k hkj
      have hjlen : j < parts.length := by
        rcases List.getElem?_eq_some.mp h3 with ⟨hl, _⟩
        exact hl
      have hklen : k < parts.length := by omega
      refine ⟨parts[k], by simp, ?_⟩
      rw [mem_deliverLoop_persist]
      apply deliverGo_persist_mem cfg rcp ok parts 0 k parts[k] (by simp)
        (Nat.zero_le _)
      intro m _ hm2
      exact h4 m (Nat.zero_le _) (by omega)

/-- Witness for C8: three parts with delivery succeeding for part 0 and
failing for part 1; the theorem's gating conjunct applied to the
recorded send of part 1 yields the success of part 0. -/
theorem C8_part_delivery_witness :
    Ev.sendMsg ['r'] 1 ['b'] false ∈
        deliverLoop false ['r'] (fun i => decide (i = 0)) [['a'], ['b'], ['c']]
    ∧ (fun i : Nat => decide (i = 0)) 0 = true :=
  ⟨by decide,
   (C8_part_delivery false ['r'] (fun i => decide (i = 0)) [['a'], ['b'], ['c']]).1
     0 ['b'] false (by decide)⟩

/-- Recognizer for outbound-persist events. -/
def isPersistOutEv : Ev → Bool
  | .persistOut _ _ _ => true
  | _ => false

/-- C1 counterexample: with the AI failing definitively (every attempt
times out), the handler's trace is exactly [persist inbound, fetch
history, send fallback] — the fallback is sent but the trace contains
no outbound-persist event at all, so the fallback is NOT persisted as
an outbound Message Record. -/
theorem C1_counterexample :
    handle_conversation false ['s'] ['h', 'i'] (fun _ => ApiOutcome.timeout)
        (fun _ => true) =
      [Ev.persistIn ['s'] ['h', 'i'], Ev.fetchHistory,
        Ev.sendMsg ['s'] 0 fallback_message true]
    ∧ (handle_conversation false ['s'] ['h', 'i'] (fun _ => ApiOutcome.timeout)
        (fun _ => true)).countP isPersistOutEv = 0 :=
  ⟨rfl, rfl⟩

/-- C1 (amended): for every conversation whose AI call yields a
definitive failure (get_response returns no reply after the retry
policy is exhausted), the fixed fallback message is sent to the sender
through the delivery channel, but it is NOT persisted as an outbound
Message Record — the trace contains the inbound persist and the
fallback send and no outbound-persist event. -/
theorem C1_fallback_sent_not_persisted (cfg : Bool) (sender text : PyStr)
    (ai : Nat → ApiOutcome) (sendOk : Nat → Bool)
    (h : get_response ai = none) :
    Ev.sendMsg sender 0 fallback_message (sendOk 0) ∈
        handle_conversation cfg sender text ai sendOk
    ∧ Ev.persistIn sender text ∈ handle_conversation cfg sender text ai sendOk
    ∧ ∀ (r : PyStr) (j : Nat) (t : PyStr),
        Ev.persistOut r j t ∉ handle_conversation cfg sender text ai sendOk := by
  refine ⟨?_, ?_, ?_⟩
  · cases cfg <;> simp [handle_conversation, h]
  · cases cfg <;> simp [handle_conversation, h]
  · intro r j t
    cases cfg <;> simp [handle_conversation, h]

/-- Witness for C1 (amended): a concrete always-failing AI oracle. -/
theorem C1_fallback_sent_not_persisted_witness :
    Ev.sendMsg ['s'] 0 fallback_message ((fun _ : Nat => true) 0) ∈
      handle_conversation false ['s'] ['h'] (fun _ => ApiOutcome.timeout)
        (fun _ => true) :=
  (C1_fallback_sent_not_persisted false ['s'] ['h'] (fun _ => ApiOutcome.timeout)
    (fun _ => true) rfl).1
